import Mathlib

/-!
Shallow embedding of `src/src/lib.rs` (crate `rust_mls`): moving-least-squares
affine deformation over 2D points, with the minimal 2D vector and 2x2 matrix
algebra it uses.

Floating point model: an `f32` value is modelled as an exact rational extended
with the IEEE special values plus-infinity, minus-infinity and NaN.  Finite
arithmetic is exact except for overflow: a result whose magnitude reaches the
IEEE-754 binary32 round-to-nearest-even overflow boundary `2^128 - 2^103`
rounds to the corresponding infinity, exactly as binary32 does.  Rounding of
representable-to-representable operations, gradual underflow and the sign of
zero are not modelled; every concrete trace used below only performs
operations whose binary32 results are exact (or overflow), so on those inputs
the model agrees with the real program bit for bit.
-/

namespace MLS

/-- Overflow boundary of IEEE-754 binary32 under round-to-nearest-even: an
exact result `x` with `|x| >= 2^128 - 2^103` rounds to infinity. -/
def ovfBound : ℚ := 2 ^ 128 - 2 ^ 103

/-- Model of an `f32` value: an exact finite rational, one of the two
infinities, or NaN. -/
inductive F32 : Type where
  | finite : ℚ → F32
  | inf : F32
  | neginf : F32
  | nan : F32
deriving DecidableEq, Repr

namespace F32

/-- Round an exact finite result into the model: overflow to the proper
infinity at the binary32 overflow boundary, otherwise keep the exact value. -/
def clamp (q : ℚ) : F32 :=
  if ovfBound ≤ q then inf
  else if q ≤ -ovfBound then neginf
  else finite q

/-- Model of Rust `f32::is_finite`. -/
def isFinite : F32 → Bool
  | finite _ => true
  | _ => false

/-- Model of Rust `f32::is_infinite` (true for both infinities, false for NaN
and finite values). -/
def isInfinite : F32 → Bool
  | inf => true
  | neginf => true
  | _ => false

/-- A value that is either a nonnegative finite rational or plus-infinity.
Every weight `1 / squared-distance` computed from finite inputs lies in this
class, and the class is closed under addition, which is what makes the
weight-sum analysis of the coincidence branch go through. -/
def NN : F32 → Prop
  | finite q => 0 ≤ q
  | inf => True
  | neginf => False
  | nan => False

/-- IEEE negation. -/
def neg : F32 → F32
  | finite q => finite (-q)
  | inf => neginf
  | neginf => inf
  | nan => nan

/-- IEEE addition (exact on finite values up to overflow). -/
def add : F32 → F32 → F32
  | finite a, finite b => clamp (a + b)
  | finite _, inf => inf
  | finite _, neginf => neginf
  | inf, finite _ => inf
  | inf, inf => inf
  | inf, neginf => nan
  | neginf, finite _ => neginf
  | neginf, inf => nan
  | neginf, neginf => neginf
  | nan, _ => nan
  | _, nan => nan

/-- IEEE subtraction, `a - b = a + (-b)`. -/
def sub (a b : F32) : F32 := add a (neg b)

/-- IEEE multiplication (exact on finite values up to overflow);
an infinity times zero is NaN. -/
def mul : F32 → F32 → F32
  | finite a, finite b => clamp (a * b)
  | finite a, inf => if 0 < a then inf else if a < 0 then neginf else nan
  | finite a, neginf => if 0 < a then neginf else if a < 0 then inf else nan
  | inf, finite b => if 0 < b then inf else if b < 0 then neginf else nan
  | neginf, finite b => if 0 < b then neginf else if b < 0 then inf else nan
  | inf, inf => inf
  | inf, neginf => neginf
  | neginf, inf => neginf
  | neginf, neginf => inf
  | nan, _ => nan
  | _, nan => nan

/-- IEEE division (exact on finite values up to overflow); a nonzero finite
value divided by zero gives a signed infinity (the sign of zero is not
modelled, so zero is treated as positive zero), zero over zero is NaN, and a
finite value divided by an infinity gives zero. -/
def div : F32 → F32 → F32
  | finite a, finite b =>
      if b = 0 then
        if a = 0 then nan else if 0 < a then inf else neginf
      else clamp (a / b)
  | finite _, inf => finite 0
  | finite _, neginf => finite 0
  | inf, finite b => if 0 ≤ b then inf else neginf
  | neginf, finite b => if 0 ≤ b then neginf else inf
  | inf, inf => nan
  | inf, neginf => nan
  | neginf, inf => nan
  | neginf, neginf => nan
  | nan, _ => nan
  | _, nan => nan

end F32

/-- `Point` from the source: a 2D point represented by a 2x1 column vector of
`f32` coordinates. -/
structure Point where
  x : F32
  y : F32
deriving DecidableEq, Repr

/-- `Mat2` from the source: a 2x2 `f32` matrix with coefficients
`| m11 m12 |` over `| m21 m22 |`, fields in the source declaration order. -/
structure Mat2 where
  m11 : F32
  m21 : F32
  m12 : F32
  m22 : F32
deriving DecidableEq, Repr

namespace Point

/-- `Point::zero`. -/
def zero : Point := ⟨F32.finite 0, F32.finite 0⟩

/-- `Point::dot`: dot product with another point. -/
def dot (a b : Point) : F32 :=
  F32.add (F32.mul a.x b.x) (F32.mul a.y b.y)

/-- `Point::sqr_norm`: square norm `x*x + y*y`. -/
def sqr_norm (a : Point) : F32 :=
  F32.add (F32.mul a.x a.x) (F32.mul a.y a.y)

/-- `Point::times_transpose`: the 2x2 matrix `a * b^T`. -/
def times_transpose (a b : Point) : Mat2 :=
  ⟨F32.mul a.x b.x, F32.mul a.y b.x, F32.mul a.x b.y, F32.mul a.y b.y⟩

/-- `From<(f32, f32)> for Point`. -/
def ofPair (p : F32 × F32) : Point := ⟨p.1, p.2⟩

/-- `impl Add for Point`: componentwise addition. -/
def add (a b : Point) : Point := ⟨F32.add a.x b.x, F32.add a.y b.y⟩

/-- `impl Sub for Point`: componentwise subtraction. -/
def sub (a b : Point) : Point := ⟨F32.sub a.x b.x, F32.sub a.y b.y⟩

/-- `impl Mul<Point> for f32`: scalar multiplication. -/
def smul (s : F32) (p : Point) : Point := ⟨F32.mul s p.x, F32.mul s p.y⟩

end Point

namespace Mat2

/-- `Mat2::zero`. -/
def zero : Mat2 := ⟨F32.finite 0, F32.finite 0, F32.finite 0, F32.finite 0⟩

/-- `Mat2::det`: determinant `m11*m22 - m21*m12`. -/
def det (m : Mat2) : F32 :=
  F32.sub (F32.mul m.m11 m.m22) (F32.mul m.m21 m.m12)

/-- `impl Add for Mat2`: componentwise addition. -/
def add (a b : Mat2) : Mat2 :=
  ⟨F32.add a.m11 b.m11, F32.add a.m21 b.m21,
   F32.add a.m12 b.m12, F32.add a.m22 b.m22⟩

/-- `impl Mul<Mat2> for f32`: scalar multiplication. -/
def smul (s : F32) (m : Mat2) : Mat2 :=
  ⟨F32.mul s m.m11, F32.mul s m.m21, F32.mul s m.m12, F32.mul s m.m22⟩

/-- `Mat2::inv`: `(1.0 / det) * [[m22, -m12], [-m21, m11]]`, with no
singularity check, exactly as in the source. -/
def inv (m : Mat2) : Mat2 :=
  smul (F32.div (F32.finite 1) m.det)
    ⟨m.m22, F32.neg m.m21, F32.neg m.m12, m.m11⟩

/-- `impl Mul for Mat2`: standard 2x2 matrix product, row by column. -/
def matmul (a b : Mat2) : Mat2 :=
  ⟨F32.add (F32.mul a.m11 b.m11) (F32.mul a.m12 b.m21),
   F32.add (F32.mul a.m21 b.m11) (F32.mul a.m22 b.m21),
   F32.add (F32.mul a.m11 b.m12) (F32.mul a.m12 b.m22),
   F32.add (F32.mul a.m21 b.m12) (F32.mul a.m22 b.m22)⟩

end Mat2

/-- Model of Rust `Iterator::position`: index of the first element satisfying
the predicate. -/
def position (p : α → Bool) : List α → Option Nat
  | [] => none
  | a :: l => if p a then some 0 else (position p l).map (fun n => n + 1)

/-- The weight closure of `deform_affine`: `1.0 / (p - v).sqr_norm()`. -/
def weight (v p : Point) : F32 :=
  F32.div (F32.finite 1) (Point.sqr_norm (Point.sub p v))

/-- The weight list `w_all` of `deform_affine`. -/
def w_all (controls_p : List (F32 × F32)) (point : F32 × F32) : List F32 :=
  controls_p.map (fun p => weight (Point.ofPair point) (Point.ofPair p))

/-- The weight sum `w_sum` of `deform_affine` (Rust `iter().sum::<f32>()`
folds from `0.0`). -/
def w_sum (controls_p : List (F32 × F32)) (point : F32 × F32) : F32 :=
  (w_all controls_p point).foldl F32.add (F32.finite 0)

/-- The weighted centroid `p_star` of `deform_affine`. -/
def p_star (controls_p : List (F32 × F32)) (point : F32 × F32) : Point :=
  let wp_star_sum :=
    (((w_all controls_p point).zip controls_p).map
      (fun wp => Point.smul wp.1 (Point.ofPair wp.2))).foldl
      Point.add Point.zero
  Point.smul (F32.div (F32.finite 1) (w_sum controls_p point)) wp_star_sum

/-- The weighted centroid `q_star` of `deform_affine`. -/
def q_star (controls_p controls_q : List (F32 × F32)) (point : F32 × F32) :
    Point :=
  let wq_star_sum :=
    (((w_all controls_p point).zip controls_q).map
      (fun wq => Point.smul wq.1 (Point.ofPair wq.2))).foldl
      Point.add Point.zero
  Point.smul (F32.div (F32.finite 1) (w_sum controls_p point)) wq_star_sum

/-- The centered source points `p_hat` of `deform_affine`. -/
def p_hat (controls_p : List (F32 × F32)) (point : F32 × F32) : List Point :=
  controls_p.map (fun p => Point.sub (Point.ofPair p) (p_star controls_p point))

/-- The estimator numerator `mp` of `deform_affine`:
the sum of `w * p_hat * p_hat^T`. -/
def mp (controls_p : List (F32 × F32)) (point : F32 × F32) : Mat2 :=
  (((w_all controls_p point).zip (p_hat controls_p point)).map
    (fun wp => Mat2.smul wp.1 (Point.times_transpose wp.2 wp.2))).foldl
    Mat2.add Mat2.zero

/-- The estimator cross term `mq` of `deform_affine`:
the sum of `(w * p_hat) * (q - q_star)^T`. -/
def mq (controls_p controls_q : List (F32 × F32)) (point : F32 × F32) : Mat2 :=
  ((((w_all controls_p point).zip (p_hat controls_p point)).zip
      controls_q).map
    (fun wpq =>
      let qh := Point.sub (Point.ofPair wpq.2) (q_star controls_p controls_q point)
      Point.times_transpose (Point.smul wpq.1.1 wpq.1.2) qh)).foldl
    Mat2.add Mat2.zero

/-- The affine linear-part matrix `m = mp.inv() * mq` of `deform_affine`. -/
def mAffine (controls_p controls_q : List (F32 × F32)) (point : F32 × F32) :
    Mat2 :=
  Mat2.matmul (Mat2.inv (mp controls_p point)) (mq controls_p controls_q point)

/-- Model of `deform_affine` from the source.  A `some` result is the returned
point; `none` models a panic: the out-of-bounds index panic on
`controls_q[index]`, the `.expect` panic when the weight sum is infinite but
no single weight is, and the `todo!()` that ends the general branch (the final
projection `(v - p_star) * m + q_star` is never computed in the source). -/
def deform_affine (controls_p controls_q : List (F32 × F32))
    (point : F32 × F32) (proximity_threshold : F32) : Option (F32 × F32) :=
  if (w_sum controls_p point).isInfinite then
    match position F32.isInfinite (w_all controls_p point) with
    | some index => controls_q[index]?
    | none => none
  else
    let _m := mAffine controls_p controls_q point
    none

/-! Helper lemmas about the floating-point model. -/

theorem ovfBound_pos : (0 : ℚ) < ovfBound := by norm_num [ovfBound]

theorem clamp_zero : F32.clamp 0 = F32.finite 0 := by
  norm_num [F32.clamp, ovfBound]

theorem clamp_NN {q : ℚ} (h : 0 ≤ q) : (F32.clamp q).NN := by
  unfold F32.clamp
  split_ifs with h1 h2
  · exact trivial
  · show False
    have := ovfBound_pos
    linarith
  · exact h

theorem clamp_ne_nan (q : ℚ) : F32.clamp q ≠ F32.nan := by
  unfold F32.clamp
  split_ifs <;> simp

theorem NN_add {a b : F32} (ha : a.NN) (hb : b.NN) : (F32.add a b).NN := by
  cases a with
  | finite qa =>
    cases b with
    | finite qb => exact clamp_NN (add_nonneg ha hb)
    | inf => exact trivial
    | neginf => exact hb.elim
    | nan => exact hb.elim
  | inf =>
    cases b with
    | finite qb => exact trivial
    | inf => exact trivial
    | neginf => exact hb.elim
    | nan => exact hb.elim
  | neginf => exact ha.elim
  | nan => exact ha.elim

theorem add_inf_of_NN {b : F32} (hb : b.NN) : F32.add F32.inf b = F32.inf := by
  cases b with
  | finite qb => rfl
  | inf => rfl
  | neginf => exact hb.elim
  | nan => exact hb.elim

theorem add_NN_inf {a : F32} (ha : a.NN) : F32.add a F32.inf = F32.inf := by
  cases a with
  | finite qa => rfl
  | inf => rfl
  | neginf => exact ha.elim
  | nan => exact ha.elim

theorem NN_eq_inf {x : F32} (h : x.NN) (hi : x.isInfinite = true) :
    x = F32.inf := by
  cases x with
  | finite q => exact absurd hi (by simp [F32.isInfinite])
  | inf => rfl
  | neginf => exact h.elim
  | nan => exact h.elim

theorem foldl_add_from_inf {l : List F32} (hl : ∀ x ∈ l, x.NN) :
    l.foldl F32.add F32.inf = F32.inf := by
  induction l with
  | nil => rfl
  | cons a t ih =>
    rw [List.foldl_cons, add_inf_of_NN (hl a (List.mem_cons_self a t))]
    exact ih (fun x hx => hl x (List.mem_cons_of_mem a hx))

theorem foldl_add_eq_inf {l : List F32} (hl : ∀ x ∈ l, x.NN) {acc : F32}
    (hacc : acc.NN) {x : F32} (hx : x ∈ l) (hxi : x.isInfinite = true) :
    l.foldl F32.add acc = F32.inf := by
  induction l generalizing acc with
  | nil => exact absurd hx (List.not_mem_nil x)
  | cons a t ih =>
    rw [List.foldl_cons]
    rcases List.mem_cons.mp hx with rfl | hxt
    · rw [NN_eq_inf (hl x (List.mem_cons_self x t)) hxi, add_NN_inf hacc]
      exact foldl_add_from_inf (fun y hy => hl y (List.mem_cons_of_mem x hy))
    · exact ih (fun y hy => hl y (List.mem_cons_of_mem a hy))
        (NN_add hacc (hl a (List.mem_cons_self a t))) hxt

theorem isFinite_iff {x : F32} : x.isFinite = true ↔ ∃ q, x = F32.finite q := by
  cases x <;> simp [F32.isFinite]

theorem NN_mul_self {x : F32} (hx : x ≠ F32.nan) : (F32.mul x x).NN := by
  cases x with
  | finite q => exact clamp_NN (mul_self_nonneg q)
  | inf => exact trivial
  | neginf => exact trivial
  | nan => exact absurd rfl hx

theorem NN_one_div {d : F32} (hd : d.NN) : (F32.div (F32.finite 1) d).NN := by
  cases d with
  | finite q =>
    by_cases h : q = 0
    · simp only [F32.div, h, if_pos rfl, one_ne_zero, if_false]
      norm_num [F32.NN]
    · have hq : 0 < q := lt_of_le_of_ne (hd : 0 ≤ q) (Ne.symm h)
      simp only [F32.div, if_neg h]
      exact clamp_NN (le_of_lt (by positivity))
  | inf => norm_num [F32.div, F32.NN]
  | neginf => exact hd.elim
  | nan => exact hd.elim

theorem sub_finite_finite (a b : ℚ) :
    F32.sub (F32.finite a) (F32.finite b) = F32.clamp (a - b) := by
  simp [F32.sub, F32.add, F32.neg, sub_eq_add_neg]

theorem NN_weight {v p : Point} (hvx : v.x.isFinite = true)
    (hvy : v.y.isFinite = true) (hpx : p.x.isFinite = true)
    (hpy : p.y.isFinite = true) : (weight v p).NN := by
  obtain ⟨a, ha⟩ := isFinite_iff.mp hvx
  obtain ⟨b, hb⟩ := isFinite_iff.mp hvy
  obtain ⟨c, hc⟩ := isFinite_iff.mp hpx
  obtain ⟨d, hd⟩ := isFinite_iff.mp hpy
  unfold weight Point.sqr_norm Point.sub
  rw [ha, hb, hc, hd, sub_finite_finite, sub_finite_finite]
  exact NN_one_div (NN_add (NN_mul_self (clamp_ne_nan _))
    (NN_mul_self (clamp_ne_nan _)))

theorem weight_self_inf {v : Point} (hvx : v.x.isFinite = true)
    (hvy : v.y.isFinite = true) : weight v v = F32.inf := by
  obtain ⟨a, ha⟩ := isFinite_iff.mp hvx
  obtain ⟨b, hb⟩ := isFinite_iff.mp hvy
  unfold weight Point.sqr_norm Point.sub
  rw [ha, hb, sub_finite_finite, sub_finite_finite, sub_self, clamp_zero]
  norm_num [F32.mul, F32.add, F32.div, clamp_zero, F32.clamp, ovfBound]

theorem mul_inf_not_finite (e : F32) : (F32.mul F32.inf e).isFinite = false := by
  cases e with
  | finite q =>
    simp only [F32.mul]
    split_ifs <;> rfl
  | inf => rfl
  | neginf => rfl
  | nan => rfl

/-! Helper lemmas about `position` and `w_all`. -/

theorem position_lt_length {p : α → Bool} {l : List α} {i : ℕ}
    (h : position p l = some i) : i < l.length := by
  induction l generalizing i with
  | nil => exact absurd h (by simp [position])
  | cons a t ih =>
    cases hpa : p a with
    | true =>
      simp only [position, hpa, if_true, Option.some.injEq] at h
      subst h
      exact Nat.succ_pos _
    | false =>
      simp only [position, hpa, Bool.false_eq_true, if_false] at h
      cases hpt : position p t with
      | none => rw [hpt] at h; exact absurd h (by simp)
      | some k =>
        rw [hpt] at h
        simp only [Option.map, Option.some.injEq] at h
        subst h
        exact Nat.succ_lt_succ (ih hpt)

theorem position_spec_some (p : α → Bool) (l : List α) (i : ℕ)
    (hi : i < l.length) (h1 : p (l.get ⟨i, hi⟩) = true)
    (h2 : ∀ j (hj : j < l.length), j < i → p (l.get ⟨j, hj⟩) = false) :
    position p l = some i := by
  induction l generalizing i with
  | nil => exact absurd hi (Nat.not_lt_zero i)
  | cons a t ih =>
    cases i with
    | zero =>
      have h1a : p a = true := h1
      simp [position, h1a]
    | succ k =>
      have hpa : p a = false := h2 0 (Nat.succ_pos _) (Nat.succ_pos _)
      have hpt : position p t = some k :=
        ih k (Nat.lt_of_succ_lt_succ hi) h1 (fun j hj hjk =>
          h2 (j + 1) (Nat.succ_lt_succ hj) (Nat.succ_lt_succ hjk))
      simp [position, hpa, hpt]

theorem position_isSome_of_mem {p : α → Bool} {l : List α} {x : α}
    (hx : x ∈ l) (hpx : p x = true) : ∃ i, position p l = some i := by
  induction l with
  | nil => exact absurd hx (List.not_mem_nil x)
  | cons a t ih =>
    cases hpa : p a with
    | true => exact ⟨0, by simp [position, hpa]⟩
    | false =>
      rcases List.mem_cons.mp hx with rfl | hxt
      · exact absurd hpx (by simp [hpa])
      · obtain ⟨i, hi⟩ := ih hxt
        exact ⟨i + 1, by simp [position, hpa, hi]⟩

theorem w_all_length (l : List (F32 × F32)) (v : F32 × F32) :
    (w_all l v).length = l.length := by simp [w_all]

theorem w_all_get (l : List (F32 × F32)) (v : F32 × F32) (i : ℕ)
    (h : i < l.length) (h2 : i < (w_all l v).length) :
    (w_all l v).get ⟨i, h2⟩ =
      weight (Point.ofPair v) (Point.ofPair (l.get ⟨i, h⟩)) := by
  simp [w_all]

theorem w_all_NN (l : List (F32 × F32)) (v : F32 × F32)
    (hfin : ∀ pq ∈ l, pq.1.isFinite = true ∧ pq.2.isFinite = true)
    (hv1 : v.1.isFinite = true) (hv2 : v.2.isFinite = true) :
    ∀ x ∈ w_all l v, x.NN := by
  intro x hx
  simp only [w_all, List.mem_map] at hx
  obtain ⟨pq, hpq, rfl⟩ := hx
  exact NN_weight hv1 hv2 (hfin pq hpq).1 (hfin pq hpq).2

theorem NN_zero : (F32.finite 0).NN := le_refl (0 : ℚ)

theorem deform_branch_eq (controls_p controls_q : List (F32 × F32))
    (point : F32 × F32) (t : F32)
    (hsum : (w_sum controls_p point).isInfinite = true)
    {i : ℕ} (hpos : position F32.isInfinite (w_all controls_p point) = some i)
    (hq : i < controls_q.length) :
    deform_affine controls_p controls_q point t =
      some (controls_q.get ⟨i, hq⟩) := by
  unfold deform_affine
  rw [if_pos hsum, hpos]
  show controls_q[i]? = some (controls_q.get ⟨i, hq⟩)
  rw [List.getElem?_eq_getElem hq, List.get_eq_getElem]

/-! Claim theorems. -/

/-- Claim C1: the spec says `deform_affine` completes the final application
step and returns `(v - p_star) * M + q_star` for any non-coincident query.
The source instead ends the general branch with `todo!()`, so the call panics
(modelled as `none`) even on a perfectly well-conditioned input: a
non-degenerate triangle of control points with distinct targets and the query
`(1/2, 1/2)`.  This theorem evaluates the code at that failing input. -/
theorem c1_final_step_missing :
    deform_affine
        [(F32.finite 0, F32.finite 0), (F32.finite 1, F32.finite 0),
         (F32.finite 0, F32.finite 1)]
        [(F32.finite 0, F32.finite 0), (F32.finite 2, F32.finite 0),
         (F32.finite 0, F32.finite 2)]
        (F32.finite (1 / 2), F32.finite (1 / 2)) (F32.finite 0) = none := by
  norm_num [deform_affine, w_sum, w_all, weight, position,
    Point.ofPair, Point.sqr_norm, Point.sub, F32.isInfinite,
    F32.add, F32.sub, F32.neg, F32.mul, F32.div, F32.clamp, ovfBound]

/-- Claim C2 (amended): `deform_affine` returns `q_i` for the smallest index
`i` whose computed weight `1 / (p_i - v).sqr_norm()` is infinite.  When the
query coincides exactly with `p_i` the weight at `i` is infinite, but an
earlier non-coincident control point can also produce an infinite weight when
`1 / d` overflows `f32`, and then its target is returned instead (see the
counterexample).  Hypotheses: equal lengths, finite control and query
coordinates, and `i` is the first index with an infinite weight. -/
theorem c2_returns_first_infinite_weight
    (controls_p controls_q : List (F32 × F32)) (point : F32 × F32) (t : F32)
    (hlen : controls_p.length = controls_q.length)
    (hfin : ∀ pq ∈ controls_p, pq.1.isFinite = true ∧ pq.2.isFinite = true)
    (hv1 : point.1.isFinite = true) (hv2 : point.2.isFinite = true)
    (i : ℕ) (hi : i < controls_p.length)
    (hw : (weight (Point.ofPair point)
        (Point.ofPair (controls_p.get ⟨i, hi⟩))).isInfinite = true)
    (hfirst : ∀ j (hj : j < controls_p.length), j < i →
      (weight (Point.ofPair point)
        (Point.ofPair (controls_p.get ⟨j, hj⟩))).isInfinite = false) :
    deform_affine controls_p controls_q point t =
      some (controls_q.get ⟨i, hlen ▸ hi⟩) := by
  have hNN := w_all_NN controls_p point hfin hv1 hv2
  have hmem : weight (Point.ofPair point)
      (Point.ofPair (controls_p.get ⟨i, hi⟩)) ∈ w_all controls_p point := by
    simp only [w_all, List.mem_map]
    exact ⟨_, List.get_mem _ _ _, rfl⟩
  have hsum : (w_sum controls_p point).isInfinite = true := by
    unfold w_sum
    rw [foldl_add_eq_inf hNN NN_zero hmem hw]
    rfl
  have hi2 : i < (w_all controls_p point).length := by
    rw [w_all_length]; exact hi
  have hpos : position F32.isInfinite (w_all controls_p point) = some i := by
    apply position_spec_some _ _ i hi2
    · rw [w_all_get _ _ i hi hi2]; exact hw
    · intro j hj hjk
      have hj2 : j < controls_p.length := by
        rw [← w_all_length controls_p point]; exact hj
      rw [w_all_get _ _ j hj2 hj]
      exact hfirst j hj2 hjk
  exact deform_branch_eq _ _ _ _ hsum hpos (hlen ▸ hi)

/-- Witness for C2: the spec scenario `P = [(0,0)], Q = [(5,5)], v = (0,0)`:
the single weight is infinite at index 0 and `deform_affine` returns
`q_0 = (5,5)`. -/
theorem c2_returns_first_infinite_weight_witness :
    deform_affine [(F32.finite 0, F32.finite 0)]
        [(F32.finite 5, F32.finite 5)]
        (F32.finite 0, F32.finite 0) (F32.finite 0)
      = some ([(F32.finite 5, F32.finite 5)].get ⟨0, Nat.zero_lt_one⟩) :=
  c2_returns_first_infinite_weight
    [(F32.finite 0, F32.finite 0)] [(F32.finite 5, F32.finite 5)]
    (F32.finite 0, F32.finite 0) (F32.finite 0) rfl
    (by simp [F32.isFinite]) rfl rfl 0 Nat.zero_lt_one
    (by norm_num [weight, Point.ofPair, Point.sqr_norm, Point.sub,
      F32.sub, F32.neg, F32.add, F32.mul, F32.div, F32.clamp,
      F32.isInfinite, ovfBound])
    (fun j _ hjk => absurd hjk (Nat.not_lt_zero j))

/-- Claim C2 counterexample: the claim as stated (the returned target is the
one of the smallest index whose control point EQUALS the query, here index 1
with target `(2,2)`) is false: with `p_0 = (2^-65, 0)` the squared distance
to the query `(0,0)` is the binary32-representable `2^-130`, whose reciprocal
overflows to infinity, so the code returns `q_0 = (1,1)` although `p_0` does
not coincide with the query and `p_1` does.  Every arithmetic step of this
trace is exact in binary32, so the real program behaves identically. -/
theorem c2_overflow_counterexample :
    deform_affine
        [(F32.finite (1 / 2 ^ 65), F32.finite 0), (F32.finite 0, F32.finite 0)]
        [(F32.finite 1, F32.finite 1), (F32.finite 2, F32.finite 2)]
        (F32.finite 0, F32.finite 0) (F32.finite 0)
      = some (F32.finite 1, F32.finite 1)
    ∧ (F32.finite (1 / 2 ^ 65), F32.finite 0) ≠
        ((F32.finite 0, F32.finite 0) : F32 × F32)
    ∧ some ((F32.finite 1 : F32), F32.finite 1) ≠
        some ((F32.finite 2 : F32), F32.finite 2) := by
  refine ⟨?_, by norm_num, by norm_num⟩
  norm_num [deform_affine, w_sum, w_all, weight, position,
    Point.ofPair, Point.sqr_norm, Point.sub, F32.isInfinite,
    F32.add, F32.sub, F32.neg, F32.mul, F32.div, F32.clamp, ovfBound]

/-- Claim C3: the identity law says `deform_affine(P, P, v) = v` for a query
not coincident with any control point; the spec scenario expects
`(0.5, 0.5)` for the triangle `P = [(0,0), (1,0), (0,1)]`.  The source
instead reaches `todo!()` in the general branch and panics (modelled as
`none`), so the identity law fails on the code. -/
theorem c3_identity_law_panics :
    deform_affine
        [(F32.finite 0, F32.finite 0), (F32.finite 1, F32.finite 0),
         (F32.finite 0, F32.finite 1)]
        [(F32.finite 0, F32.finite 0), (F32.finite 1, F32.finite 0),
         (F32.finite 0, F32.finite 1)]
        (F32.finite (1 / 2), F32.finite (1 / 2)) (F32.finite 0) = none := by
  norm_num [deform_affine, w_sum, w_all, weight, position,
    Point.ofPair, Point.sqr_norm, Point.sub, F32.isInfinite,
    F32.add, F32.sub, F32.neg, F32.mul, F32.div, F32.clamp, ovfBound]

/-- Claim C4: the translation law says `deform_affine(P, P + t, v) = v + t`
for every query; the spec scenario expects `(2.5, 3.5)` for the translation
by `(2,3)` of the triangle and query `(0.5, 0.5)`.  The query does not
coincide with a control point, so the source reaches `todo!()` and panics
(modelled as `none`), and the translation law fails on the code. -/
theorem c4_translation_law_panics :
    deform_affine
        [(F32.finite 0, F32.finite 0), (F32.finite 1, F32.finite 0),
         (F32.finite 0, F32.finite 1)]
        [(F32.finite 2, F32.finite 3), (F32.finite 3, F32.finite 3),
         (F32.finite 2, F32.finite 4)]
        (F32.finite (1 / 2), F32.finite (1 / 2)) (F32.finite 0) = none := by
  norm_num [deform_affine, w_sum, w_all, weight, position,
    Point.ofPair, Point.sqr_norm, Point.sub, F32.isInfinite,
    F32.add, F32.sub, F32.neg, F32.mul, F32.div, F32.clamp, ovfBound]

/-- Claim C5: the spec demands that a control set with all `p_i` equal be
surfaced as an explicit degenerate-geometry failure detected by a determinant
tolerance check.  The code contains no such check: on the degenerate input
`P = [(0,0), (0,0)]` the estimator `Mp` is the zero matrix, its unchecked
inverse is computed anyway and the affine matrix `m` comes out with all four
entries NaN, after which the call panics at `todo!()` — observationally the
same `none` as a perfectly well-conditioned input (third conjunct), so no
distinct failure is surfaced. -/
theorem c5_no_degeneracy_check :
    mAffine [(F32.finite 0, F32.finite 0), (F32.finite 0, F32.finite 0)]
        [(F32.finite 0, F32.finite 0), (F32.finite 1, F32.finite 1)]
        (F32.finite 1, F32.finite 0)
      = ⟨F32.nan, F32.nan, F32.nan, F32.nan⟩
    ∧ deform_affine [(F32.finite 0, F32.finite 0), (F32.finite 0, F32.finite 0)]
        [(F32.finite 0, F32.finite 0), (F32.finite 1, F32.finite 1)]
        (F32.finite 1, F32.finite 0) (F32.finite 0) = none
    ∧ deform_affine
        [(F32.finite 0, F32.finite 0), (F32.finite 2, F32.finite 0),
         (F32.finite 0, F32.finite 2)]
        [(F32.finite 0, F32.finite 0), (F32.finite 2, F32.finite 0),
         (F32.finite 0, F32.finite 2)]
        (F32.finite 1, F32.finite 1) (F32.finite 0) = none := by
  refine ⟨?_, ?_, ?_⟩
  · norm_num [mAffine, mp, mq, p_hat, p_star, q_star, w_sum, w_all, weight,
      Point.ofPair, Point.sqr_norm, Point.sub, Point.add, Point.smul,
      Point.zero, Point.times_transpose, Mat2.zero, Mat2.add, Mat2.smul,
      Mat2.matmul, Mat2.inv, Mat2.det,
      F32.add, F32.sub, F32.neg, F32.mul, F32.div, F32.clamp, ovfBound]
  · norm_num [deform_affine, w_sum, w_all, weight, position,
      Point.ofPair, Point.sqr_norm, Point.sub, F32.isInfinite,
      F32.add, F32.sub, F32.neg, F32.mul, F32.div, F32.clamp, ovfBound]
  · norm_num [deform_affine, w_sum, w_all, weight, position,
      Point.ofPair, Point.sqr_norm, Point.sub, F32.isInfinite,
      F32.add, F32.sub, F32.neg, F32.mul, F32.div, F32.clamp, ovfBound]

/-- Claim C6: the spec demands that mismatched-length or empty control sets
be rejected with an explicit failure before the weighted-sum computation.
The code performs no validation at all: with `P` longer than `Q` and the
query on `p_0`, it happily returns `q_0` (first conjunct); with the
coinciding point at an index beyond `Q`, it panics on the out-of-bounds
`controls_q[index]` (second conjunct, modelled as `none`); with empty inputs
it runs the whole weighted-sum computation and panics at `todo!()` (third
conjunct) — in no case is the bad shape rejected up front. -/
theorem c6_no_input_validation :
    deform_affine [(F32.finite 0, F32.finite 0), (F32.finite 9, F32.finite 9)]
        [(F32.finite 5, F32.finite 5)]
        (F32.finite 0, F32.finite 0) (F32.finite 0)
      = some (F32.finite 5, F32.finite 5)
    ∧ deform_affine [(F32.finite 1, F32.finite 1), (F32.finite 0, F32.finite 0)]
        [(F32.finite 5, F32.finite 5)]
        (F32.finite 0, F32.finite 0) (F32.finite 0) = none
    ∧ deform_affine [] [] (F32.finite 0, F32.finite 0) (F32.finite 0) = none := by
  refine ⟨?_, ?_, ?_⟩ <;>
    norm_num [deform_affine, w_sum, w_all, weight, position,
      Point.ofPair, Point.sqr_norm, Point.sub, F32.isInfinite,
      F32.add, F32.sub, F32.neg, F32.mul, F32.div, F32.clamp, ovfBound]

/-- Claim C7: `det` is `m11*m22 - m21*m12`, `inv` is
`(1/det) * [[m22, -m12], [-m21, m11]]` with no singularity check, and when
the determinant is exactly zero every entry of the computed inverse is
non-finite (an infinity or NaN) and flows on into later computation. -/
theorem c7_det_inv_formulas (m : Mat2) :
    m.det = F32.sub (F32.mul m.m11 m.m22) (F32.mul m.m21 m.m12)
    ∧ m.inv = Mat2.smul (F32.div (F32.finite 1) m.det)
        ⟨m.m22, F32.neg m.m21, F32.neg m.m12, m.m11⟩
    ∧ (m.det = F32.finite 0 →
        m.inv.m11.isFinite = false ∧ m.inv.m21.isFinite = false ∧
        m.inv.m12.isFinite = false ∧ m.inv.m22.isFinite = false) := by
  refine ⟨rfl, rfl, fun h => ?_⟩
  have h1 : F32.div (F32.finite 1) m.det = F32.inf := by
    rw [h]; norm_num [F32.div]
  simp only [Mat2.inv, Mat2.smul, h1]
  exact ⟨mul_inf_not_finite _, mul_inf_not_finite _,
    mul_inf_not_finite _, mul_inf_not_finite _⟩

/-- Witness for C7: the all-ones matrix has determinant exactly zero and its
unchecked inverse has no finite entry. -/
theorem c7_det_inv_formulas_witness :
    (Mat2.mk (F32.finite 1) (F32.finite 1) (F32.finite 1) (F32.finite 1)).det
      = F32.finite 0
    ∧ ((Mat2.mk (F32.finite 1) (F32.finite 1) (F32.finite 1)
          (F32.finite 1)).inv.m11.isFinite = false
       ∧ (Mat2.mk (F32.finite 1) (F32.finite 1) (F32.finite 1)
          (F32.finite 1)).inv.m21.isFinite = false
       ∧ (Mat2.mk (F32.finite 1) (F32.finite 1) (F32.finite 1)
          (F32.finite 1)).inv.m12.isFinite = false
       ∧ (Mat2.mk (F32.finite 1) (F32.finite 1) (F32.finite 1)
          (F32.finite 1)).inv.m22.isFinite = false) :=
  ⟨by norm_num [Mat2.det, F32.mul, F32.sub, F32.neg, F32.add, F32.clamp,
      ovfBound],
   (c7_det_inv_formulas _).2.2
     (by norm_num [Mat2.det, F32.mul, F32.sub, F32.neg, F32.add, F32.clamp,
        ovfBound])⟩

/-- Claim C8: the result of `deform_affine` is fully determined by
`(P, Q, v)`; in particular the unused `proximity_threshold` parameter has no
effect whatsoever on the result, for every input. -/
theorem c8_deterministic_threshold_independent
    (controls_p controls_q : List (F32 × F32)) (point : F32 × F32)
    (t1 t2 : F32) :
    deform_affine controls_p controls_q point t1 =
      deform_affine controls_p controls_q point t2 := rfl

/-- Claim C9: the claim asserts the `.expect` in the coincidence branch never
panics, i.e. an infinite weight sum implies some individual infinite weight.
False: with both control points at `(2^-64, 2^-64)` and the query at the
origin, each weight is the finite `2^127` but their sum overflows binary32
to infinity, so the branch is entered, `position` finds no infinite weight,
and the `.expect` panics (modelled as `none`).  Every arithmetic step of this
trace is exact in binary32 apart from the final overflow, which binary32
performs identically, so the real program panics on this input. -/
theorem c9_expect_can_panic :
    w_all [(F32.finite (1 / 2 ^ 64), F32.finite (1 / 2 ^ 64)),
           (F32.finite (1 / 2 ^ 64), F32.finite (1 / 2 ^ 64))]
        (F32.finite 0, F32.finite 0)
      = [F32.finite (2 ^ 127), F32.finite (2 ^ 127)]
    ∧ w_sum [(F32.finite (1 / 2 ^ 64), F32.finite (1 / 2 ^ 64)),
             (F32.finite (1 / 2 ^ 64), F32.finite (1 / 2 ^ 64))]
        (F32.finite 0, F32.finite 0) = F32.inf
    ∧ position F32.isInfinite
        (w_all [(F32.finite (1 / 2 ^ 64), F32.finite (1 / 2 ^ 64)),
                (F32.finite (1 / 2 ^ 64), F32.finite (1 / 2 ^ 64))]
          (F32.finite 0, F32.finite 0)) = none
    ∧ deform_affine
        [(F32.finite (1 / 2 ^ 64), F32.finite (1 / 2 ^ 64)),
         (F32.finite (1 / 2 ^ 64), F32.finite (1 / 2 ^ 64))]
        [(F32.finite 1, F32.finite 1), (F32.finite 2, F32.finite 2)]
        (F32.finite 0, F32.finite 0) (F32.finite 0) = none := by
  refine ⟨?_, ?_, ?_, ?_⟩ <;>
    norm_num [deform_affine, w_sum, w_all, weight, position,
      Point.ofPair, Point.sqr_norm, Point.sub, F32.isInfinite,
      F32.add, F32.sub, F32.neg, F32.mul, F32.div, F32.clamp, ovfBound]

/-- Claim C10: under the precondition that the control sequences have equal
length at least 1, whenever the query coincides with some control point
(finite coordinates), the index located in the coincidence branch is in
bounds for `controls_q` and `deform_affine` returns normally from that
branch with the corresponding target. -/
theorem c10_coincidence_branch_in_bounds
    (controls_p controls_q : List (F32 × F32)) (point : F32 × F32) (t : F32)
    (hlen : controls_p.length = controls_q.length)
    (hfin : ∀ pq ∈ controls_p, pq.1.isFinite = true ∧ pq.2.isFinite = true)
    (hv1 : point.1.isFinite = true) (hv2 : point.2.isFinite = true)
    (i : ℕ) (hi : i < controls_p.length)
    (hco : controls_p.get ⟨i, hi⟩ = point) :
    ∃ j, ∃ hj : j < controls_q.length,
      deform_affine controls_p controls_q point t =
        some (controls_q.get ⟨j, hj⟩) := by
  have hNN := w_all_NN controls_p point hfin hv1 hv2
  have hwinf : (weight (Point.ofPair point)
      (Point.ofPair (controls_p.get ⟨i, hi⟩))).isInfinite = true := by
    rw [hco, weight_self_inf hv1 hv2]
    rfl
  have hmem : weight (Point.ofPair point)
      (Point.ofPair (controls_p.get ⟨i, hi⟩)) ∈ w_all controls_p point := by
    simp only [w_all, List.mem_map]
    exact ⟨_, List.get_mem _ _ _, rfl⟩
  have hsum : (w_sum controls_p point).isInfinite = true := by
    unfold w_sum
    rw [foldl_add_eq_inf hNN NN_zero hmem hwinf]
    rfl
  obtain ⟨j, hpos⟩ := position_isSome_of_mem hmem hwinf
  have hj : j < controls_q.length := by
    rw [← hlen, ← w_all_length controls_p point]
    exact position_lt_length hpos
  exact ⟨j, hj, deform_branch_eq _ _ _ _ hsum hpos hj⟩

/-- Witness for C10: one control point `(3,4)` mapped to `(7,9)` and the
query exactly on it: the located index 0 is in bounds and the branch
returns `(7,9)`. -/
theorem c10_coincidence_branch_in_bounds_witness :
    ∃ j, ∃ hj : j < [((F32.finite 7 : F32), F32.finite 9)].length,
      deform_affine [(F32.finite 3, F32.finite 4)]
          [(F32.finite 7, F32.finite 9)]
          (F32.finite 3, F32.finite 4) (F32.finite 0)
        = some ([(F32.finite 7, F32.finite 9)].get ⟨j, hj⟩) :=
  c10_coincidence_branch_in_bounds
    [(F32.finite 3, F32.finite 4)] [(F32.finite 7, F32.finite 9)]
    (F32.finite 3, F32.finite 4) (F32.finite 0) rfl
    (by simp [F32.isFinite]) rfl rfl 0 Nat.zero_lt_one rfl

end MLS
